import Mathlib

/-!
Shallow embedding of the Letterboxd Elo movie ranker
(`src/src/MovieRanker.jsx`): the entity model, the rating engine,
the pair selector, the import merger and the store transitions,
together with theorems settling the specification claims.

Numbers: JavaScript numbers are modelled exactly — integers as `ℤ`,
source ratings as `ℚ`, and the Elo arithmetic (which uses `Math.pow`
with a real exponent) over `ℝ`.  A JavaScript value that may be
`null`, `NaN` or a number (the normalized rating) is modelled by the
dedicated type `RatingVal`.
-/

namespace LetterboxdElo

/-- The possible values of an item's `rating` field in the source:
`null` (empty rating string), `NaN` (non-numeric rating string, from
`parseFloat`), or a number. -/
inductive RatingVal where
  | null : RatingVal
  | nan : RatingVal
  | num : ℚ → RatingVal
deriving DecidableEq

/-- `ratingToInitialElo` (MovieRanker.jsx:13-19).
`if (!rating || isNaN(rating)) return 1200;` — in JavaScript `!rating`
is true for `null`, `NaN` and also for the number `0`, so all three
yield 1200; otherwise `Math.round(1200 + (r - 2.5) * 200)`.
Mathlib's `round` is `⌊x + 1/2⌋`, which is exactly `Math.round`. -/
def ratingToInitialElo : RatingVal → ℤ
  | .null => 1200
  | .nan => 1200
  | .num r => if r = 0 then 1200 else round ((1200 : ℚ) + (r - 5/2) * 200)

/-- `expectedScore` (MovieRanker.jsx:21-23): `1 / (1 + 10^((eloB - eloA)/400))`,
with real-number exponentiation (`Math.pow`). -/
noncomputable def expectedScore (eloA eloB : ℝ) : ℝ :=
  1 / (1 + (10 : ℝ) ^ ((eloB - eloA) / 400))

/-- `updateElo` (MovieRanker.jsx:25-31): each side's new rating is
`Math.round(old + k * (actual - expected))`, rounded independently. -/
noncomputable def updateElo (eloA eloB scoreA k : ℝ) : ℤ × ℤ :=
  let expA := expectedScore eloA eloB
  let expB := 1 - expA
  let newA := eloA + k * (scoreA - expA)
  let newB := eloB + k * ((1 - scoreA) - expB)
  (round newA, round newB)

/-! ## Entity model: rows and items -/

/-- A parsed CSV row: an association list from field name to string
value, in column order (`Object.keys` order).  PapaParse with
`header: true` produces exactly such string-valued records. -/
abbrev Row := List (String × String)

/-- `r[k]` for a row object: `none` models JavaScript `undefined`. -/
def getField (r : Row) (k : String) : Option String :=
  (r.find? (fun kv => kv.1 == k)).map (fun kv => kv.2)

/-- JavaScript truthiness for an optional string: `undefined` and the
empty string are falsy. `truthy o` is `some v` iff the value is truthy. -/
def truthy : Option String → Option String
  | some v => if v = "" then none else some v
  | none => none

/-- `mapKey` (MovieRanker.jsx:89): `keys.find((k) => k in row) || null`. -/
def mapKey (keys : List String) (r : Row) : Option String :=
  keys.find? (fun k => (getField r k).isSome)

def titleKeys : List String := ["Title", "title", "Film", "Name"]
def ratingKeys : List String := ["Rating", "rating", "Your Rating", "your_rating"]
def yearKeys : List String := ["Year", "year", "Release Year"]

/-- `(tKey && r[tKey]) || r[Object.keys(r)[0]] || "Unknown"` (line 96). -/
def rowTitle (tKey : Option String) (r : Row) : String :=
  match truthy (tKey.bind (getField r)) with
  | some v => v
  | none =>
    match truthy (r.head?.map (fun kv => kv.2)) with
    | some v => v
    | none => "Unknown"

/-- `(yKey && r[yKey]) || ""` (line 97). -/
def rowYear (yKey : Option String) (r : Row) : String :=
  match truthy (yKey.bind (getField r)) with
  | some v => v
  | none => ""

/-- `r[rKey] || r["Rating"] || r["rating"] || ""` (line 98).  When
`rKey` is `null`, `r[null]` is `undefined` (we do not model a column
literally named "null"). -/
def rawRatingOf (rKey : Option String) (r : Row) : String :=
  match truthy (rKey.bind (getField r)) with
  | some v => v
  | none =>
    match truthy (getField r "Rating") with
    | some v => v
    | none =>
      match truthy (getField r "rating") with
      | some v => v
      | none => ""

/-- Model of the JavaScript builtin `String.prototype.trim` (an
external builtin): removes leading and trailing whitespace.  Defined
over the character list so that it is kernel-computable; it agrees
with Lean's `String.trim` on these inputs. -/
def jsTrim (s : String) : String :=
  ⟨((s.data.dropWhile Char.isWhitespace).reverse.dropWhile Char.isWhitespace).reverse⟩

/-- Numeric value of a digit run (most significant first). -/
def digitsVal (l : List Char) : ℕ :=
  l.foldl (fun n c => n * 10 + (c.toNat - 48)) 0

/-- Model of the JavaScript builtin `parseFloat` (an external
collaborator of the source, not repository code): skip leading
whitespace, read an optional sign, then the longest prefix of the form
`digits [. digits] [e|E [sign] digits]`; the result is `none` (NaN)
when no digit was read.  `Infinity` literals are not modelled, and the
numeric value is exact (rational) rather than double-rounded. -/
def parseFloat (s : String) : Option ℚ :=
  let l := s.toList.dropWhile Char.isWhitespace
  let signAndRest : ℚ × List Char :=
    match l with
    | '-' :: rest => (-1, rest)
    | '+' :: rest => (1, rest)
    | _ => (1, l)
  let sign := signAndRest.1
  let l1 := signAndRest.2
  let intPart := l1.takeWhile Char.isDigit
  let l2 := l1.dropWhile Char.isDigit
  let fracAndRest : List Char × List Char :=
    match l2 with
    | '.' :: rest => (rest.takeWhile Char.isDigit, rest.dropWhile Char.isDigit)
    | _ => ([], l2)
  let fracPart := fracAndRest.1
  let l3 := fracAndRest.2
  if intPart = [] ∧ fracPart = [] then none
  else
    let mantissa : ℚ :=
      (digitsVal intPart : ℚ) + (digitsVal fracPart : ℚ) / ((10 : ℚ) ^ fracPart.length)
    let exponent : ℤ :=
      match l3 with
      | c :: rest =>
        if c = 'e' ∨ c = 'E' then
          let esignAndRest : ℤ × List Char :=
            match rest with
            | '-' :: r2 => (-1, r2)
            | '+' :: r2 => (1, r2)
            | _ => (1, rest)
          let eds := esignAndRest.2.takeWhile Char.isDigit
          if eds = [] then 0 else esignAndRest.1 * (digitsVal eds : ℤ)
        else 0
      | [] => 0
    some (sign * mantissa * (10 : ℚ) ^ exponent)

/-- One ranked movie (the object built at MovieRanker.jsx:101-110). -/
structure Item where
  id : String
  title : String
  year : String
  rating : RatingVal
  elo : ℤ
  played : ℕ
  wins : ℕ
  losses : ℕ
deriving DecidableEq

/-- `rawRating === "" ? null : parseFloat(rawRating)` (line 99). -/
def normalizeRating (rawRating : String) : RatingVal :=
  if rawRating = "" then .null else
    match parseFloat rawRating with
    | none => .nan
    | some q => .num q

/-- The row-to-item conversion in `importRatingsCsv` (lines 95-111).
Note the id is `(title + "|" + year).trim()`: the trim is applied to
the concatenation, not to the parts. -/
def parseRow (tKey rKey yKey : Option String) (r : Row) : Item :=
  let title := rowTitle tKey r
  let year := rowYear yKey r
  let rawRating := rawRatingOf rKey r
  let normalizedRating := normalizeRating rawRating
  { id := jsTrim (title ++ "|" ++ year)
    title := jsTrim title
    year := if year = "" then year else jsTrim year
    rating := normalizedRating
    elo := ratingToInitialElo normalizedRating
    played := 0
    wins := 0
    losses := 0 }

/-- The `parsed` list of `importRatingsCsv`: the synonym keys are
resolved against the first row (`rows[0] || {}`), then every row is
converted. -/
def parseRows (rows : List Row) : List Item :=
  let r0 := rows.head?.getD []
  let tKey := mapKey titleKeys r0
  let rKey := mapKey ratingKeys r0
  let yKey := mapKey yearKeys r0
  rows.map (parseRow tKey rKey yKey)

/-! ## Store and transitions -/

/-- One resolved comparison (MovieRanker.jsx:172). -/
structure HistoryEntry where
  time : String
  winner : String
  loser : String
  prevA : ℤ
  prevB : ℤ
  newA : ℤ
  newB : ℤ
deriving DecidableEq

/-- The process-wide state: `movies` and `history`. -/
structure Store where
  movies : List Item
  history : List HistoryEntry
deriving DecidableEq

/-- The `setMovies` functional update of `importRatingsCsv`
(lines 117-123): fresh import replaces the collection, merge appends
only parsed items whose id is not already present. -/
def importRatingsCsv (rows : List Row) (merge : Bool) (s : Store) : Store :=
  let parsed := parseRows rows
  if !merge then { s with movies := parsed }
  else
    let existingIds := s.movies.map Item.id
    let toAdd := parsed.filter (fun p => !(existingIds.contains p.id))
    { s with movies := s.movies ++ toAdd }

/-- The per-item update applied by `handleChoice`'s `cur.map`
(lines 165-169). -/
def resolveItem (winId losId : String) (newA newB : ℤ) (m : Item) : Item :=
  if m.id = winId then { m with elo := newA, played := m.played + 1, wins := m.wins + 1 }
  else if m.id = losId then { m with elo := newB, played := m.played + 1, losses := m.losses + 1 }
  else m

/-- `handleChoice` (MovieRanker.jsx:159-176): a no-op unless both ids
are found; otherwise update the matching items and prepend one history
entry.  The timestamp is taken as a parameter (injected clock). -/
noncomputable def handleChoice (winnerId loserId time : String) (s : Store) : Store :=
  match s.movies.find? (fun m => m.id == winnerId),
        s.movies.find? (fun m => m.id == loserId) with
  | some a, some b =>
    let p := updateElo (a.elo : ℝ) (b.elo : ℝ) 1 32
    { movies := s.movies.map (resolveItem a.id b.id p.1 p.2)
      history :=
        { time := time, winner := a.id, loser := b.id,
          prevA := a.elo, prevB := b.elo, newA := p.1, newB := p.2 } :: s.history }
  | _, _ => s

/-- Comparison used by `picks.sort((x, y) => x[2] - y[2])`: ascending
absolute Elo difference. -/
def eloDiffLE (x y : Item × Item × ℕ) : Bool := decide (x.2.2 ≤ y.2.2)

/-- The retained draws of `pickPair` (lines 139-146): the random
source is taken as an input list of index pairs; the loop consumes
`min(200, 2n)` draws, keeps those whose two indices are in range and
whose items have distinct ids, and records `Math.abs(a.elo - b.elo)`. -/
def retainedPicks (movies : List Item) (draws : List (ℕ × ℕ)) : List (Item × Item × ℕ) :=
  (draws.take (min 200 (movies.length * 2))).filterMap (fun ij =>
    match movies[ij.1]?, movies[ij.2]? with
    | some a, some b => if a.id = b.id then none else some (a, b, (a.elo - b.elo).natAbs)
    | _, _ => none)

/-- `pickPair` (MovieRanker.jsx:131-157): no pair when fewer than two
movies (early return); fall back to `movies[0], movies[1]` when no
draw was retained; else stably sort the retained draws by Elo
difference (`picks.sort((x, y) => x[2] - y[2])`, JavaScript sort is
stable) and take the first. -/
def pickPair (movies : List Item) (draws : List (ℕ × ℕ)) : Option (Item × Item) :=
  if movies.length < 2 then none
  else if retainedPicks movies draws = [] then
    match movies[0]?, movies[1]? with
    | some a, some b => some (a, b)
    | _, _ => none
  else
    match (retainedPicks movies draws).mergeSort eloDiffLE with
    | best :: _ => some (best.1, best.2.1)
    | [] => none

/-- Reachable store states: the empty initial state, any import, any
comparison resolution (with arbitrary ids and timestamp). -/
inductive Reachable : Store → Prop where
  | init : Reachable ⟨[], []⟩
  | imp : ∀ (rows : List Row) (merge : Bool) (s : Store),
      Reachable s → Reachable (importRatingsCsv rows merge s)
  | choice : ∀ (w l t : String) (s : Store),
      Reachable s → Reachable (handleChoice w l t s)

/-! ## Claim C1: the initial-rating map -/

/-- Evaluation helper: a nonzero numeric rating follows the rounded
linear formula, stated for an exact integer target. -/
lemma ratingToInitialElo_num_eval (r : ℚ) (n : ℤ) (hr : r ≠ 0)
    (h : (1200 : ℚ) + (r - 5/2) * 200 = (n : ℚ)) :
    ratingToInitialElo (.num r) = n := by
  simp only [ratingToInitialElo, if_neg hr, h, round_intCast]

/-- C1 counterexample: the claim fails at the in-range rating `r = 0`.
In JavaScript `!0` is true, so `ratingToInitialElo` returns the 1200
default instead of `round(1200 + (0 - 2.5) * 200) = 700`, and the map
is not non-decreasing on `[0, 5]`: it maps `0 ↦ 1200` but `0.5 ↦ 800`. -/
theorem claim1_counterexample :
    ratingToInitialElo (.num 0) = 1200 ∧
    round ((1200 : ℚ) + ((0 : ℚ) - 5/2) * 200) = 700 ∧
    ratingToInitialElo (.num (1/2)) = 800 ∧
    ¬ ratingToInitialElo (.num 0) ≤ ratingToInitialElo (.num (1/2)) := by
  have h0 : ratingToInitialElo (.num 0) = 1200 := by simp [ratingToInitialElo]
  have h700 : round ((1200 : ℚ) + ((0 : ℚ) - 5/2) * 200) = 700 := by
    rw [show (1200 : ℚ) + ((0 : ℚ) - 5/2) * 200 = ((700 : ℤ) : ℚ) by norm_num,
      round_intCast]
  have h800 : ratingToInitialElo (.num (1/2)) = 800 :=
    ratingToInitialElo_num_eval (1/2) 800 (by norm_num) (by norm_num)
  exact ⟨h0, h700, h800, by rw [h0, h800]; norm_num⟩

/-- C1 (amended): on `(0, 5]` the map is non-decreasing, `2.5 ↦ 1200`,
and every present nonzero numeric rating follows the linear rounded
formula; absent (`null`), invalid (`NaN`) and the falsy rating `0` all
map to the 1200 default. -/
theorem ratingToInitialElo_amended :
    (∀ r₁ r₂ : ℚ, 0 < r₁ → r₁ ≤ r₂ → r₂ ≤ 5 →
        ratingToInitialElo (.num r₁) ≤ ratingToInitialElo (.num r₂)) ∧
    ratingToInitialElo (.num (5/2)) = 1200 ∧
    (∀ r : ℚ, r ≠ 0 →
        ratingToInitialElo (.num r) = round ((1200 : ℚ) + (r - 5/2) * 200)) ∧
    ratingToInitialElo .null = 1200 ∧
    ratingToInitialElo .nan = 1200 ∧
    ratingToInitialElo (.num 0) = 1200 := by
  refine ⟨?_, ratingToInitialElo_num_eval (5/2) 1200 (by norm_num) (by norm_num),
    ?_, rfl, rfl, by simp [ratingToInitialElo]⟩
  · intro r₁ r₂ h1 h12 h25
    have hne1 : r₁ ≠ 0 := ne_of_gt h1
    have hne2 : r₂ ≠ 0 := ne_of_gt (lt_of_lt_of_le h1 h12)
    simp only [ratingToInitialElo, if_neg hne1, if_neg hne2]
    rw [round_eq, round_eq]
    exact Int.floor_le_floor (by linarith)
  · intro r hr
    simp [ratingToInitialElo, hr]

/-- Witness for the amended C1 at concrete inputs. -/
theorem ratingToInitialElo_amended_witness :
    ratingToInitialElo (.num (1/2)) ≤ ratingToInitialElo (.num 3) ∧
    ratingToInitialElo (.num 1) = round ((1200 : ℚ) + ((1 : ℚ) - 5/2) * 200) :=
  ⟨ratingToInitialElo_amended.1 (1/2) 3 (by norm_num) (by norm_num) (by norm_num),
   ratingToInitialElo_amended.2.2.1 1 (by norm_num)⟩

/-! ## Claim C3: the Elo update -/

/-- The two expected scores are complementary. -/
lemma expectedScore_compl (a b : ℝ) :
    expectedScore a b + expectedScore b a = 1 := by
  unfold expectedScore
  have hpos : (0 : ℝ) < (10 : ℝ) ^ ((b - a) / 400) :=
    Real.rpow_pos_of_pos (by norm_num) _
  rw [show (a - b) / 400 = -((b - a) / 400) by ring,
    Real.rpow_neg (by norm_num)]
  have h2 : (10 : ℝ) ^ ((b - a) / 400) ≠ 0 := ne_of_gt hpos
  have h1 : (1 : ℝ) + (10 : ℝ) ^ ((b - a) / 400) ≠ 0 := by positivity
  field_simp
  ring

/-- At equal ratings the expected score is one half. -/
lemma expectedScore_self (a : ℝ) : expectedScore a a = 1 / 2 := by
  unfold expectedScore
  rw [show (a - a) / 400 = 0 by ring, Real.rpow_zero]
  norm_num

/-- Evaluation of the 1200-vs-1200 update. -/
lemma updateElo_eval_1200 : updateElo 1200 1200 1 32 = (1216, 1184) := by
  simp only [updateElo, expectedScore_self]
  have h1 : (1200 : ℝ) + 32 * (1 - 1 / 2) = ((1216 : ℤ) : ℝ) := by norm_num
  have h2 : (1200 : ℝ) + 32 * ((1 - 1) - (1 - 1 / 2)) = ((1184 : ℤ) : ℝ) := by norm_num
  rw [h1, h2, round_intCast, round_intCast]

/-- C3: `updateElo` computes the logistic expected score, the
complement for B, and the independently rounded new ratings; the two
pre-rounding deltas are exact negatives (hence equal in magnitude),
and the 1200-vs-1200 update gives the winner 1216 and the loser 1184. -/
theorem updateElo_spec :
    (∀ eloA eloB : ℝ,
        expectedScore eloA eloB = 1 / (1 + (10 : ℝ) ^ ((eloB - eloA) / 400))) ∧
    (∀ eloA eloB : ℝ, expectedScore eloA eloB + expectedScore eloB eloA = 1) ∧
    (∀ eloA eloB scoreA k : ℝ, updateElo eloA eloB scoreA k =
        (round (eloA + k * (scoreA - expectedScore eloA eloB)),
         round (eloB + k * ((1 - scoreA) - (1 - expectedScore eloA eloB))))) ∧
    (∀ eloA eloB scoreA k : ℝ,
        (eloB + k * ((1 - scoreA) - (1 - expectedScore eloA eloB))) - eloB
          = -((eloA + k * (scoreA - expectedScore eloA eloB)) - eloA)) ∧
    updateElo 1200 1200 1 32 = (1216, 1184) ∧
    1200 < (updateElo 1200 1200 1 32).1 ∧
    (updateElo 1200 1200 1 32).2 < 1200 := by
  refine ⟨fun _ _ => rfl, expectedScore_compl, fun _ _ _ _ => rfl,
    fun eloA eloB scoreA k => by ring, updateElo_eval_1200, ?_, ?_⟩
  · rw [updateElo_eval_1200]; norm_num
  · rw [updateElo_eval_1200]; norm_num

/-! ## Concrete rows used by witnesses and counterexamples -/

def rowX5 : Row := [("Title", "X"), ("Year", "2001"), ("Rating", "5")]
def rowX1 : Row := [("Title", "X"), ("Year", "2001"), ("Rating", "1")]
def rowX : Row := [("Title", "X"), ("Year", "2001")]
def rowXsp : Row := [("Title", "X "), ("Year", "2001")]
def rowAbc : Row := [("Title", "X"), ("Year", "2001"), ("Rating", "abc")]
def rowY : Row := [("Title", "Y"), ("Year", "2002")]

/-! ## Claim C4: the derived id -/

/-- C4 counterexample: the source computes `(title + "|" + year).trim()`,
trimming the concatenation, not `trim(title) + "|" + trim(year)`.  A
title with a trailing space keeps that space inside the id, and two
rows with equal trimmed titles and years get different ids. -/
theorem claim4_counterexample :
    (parseRows [rowXsp]).map Item.id = ["X |2001"] ∧
    jsTrim "X " ++ "|" ++ jsTrim "2001" = "X|2001" ∧
    ("X |2001" : String) ≠ "X|2001" ∧
    jsTrim "X " = jsTrim "X" ∧
    (parseRows [rowXsp, rowX]).map Item.id = ["X |2001", "X|2001"] :=
  ⟨by decide, by decide, by decide, by decide, by decide⟩

/-- C4 (amended): the id is `trim(title + "|" + year)` over the
resolved raw field values, so two rows whose resolved raw title and
raw year agree produce the same id (even under different resolved
synonym keys). -/
theorem rowId_amended :
    (∀ (tKey rKey yKey : Option String) (r : Row),
        (parseRow tKey rKey yKey r).id
          = jsTrim (rowTitle tKey r ++ "|" ++ rowYear yKey r)) ∧
    (∀ (tK₁ rK₁ yK₁ tK₂ rK₂ yK₂ : Option String) (r₁ r₂ : Row),
        rowTitle tK₁ r₁ = rowTitle tK₂ r₂ →
        rowYear yK₁ r₁ = rowYear yK₂ r₂ →
        (parseRow tK₁ rK₁ yK₁ r₁).id = (parseRow tK₂ rK₂ yK₂ r₂).id) := by
  refine ⟨fun _ _ _ _ => rfl, ?_⟩
  intro tK₁ rK₁ yK₁ tK₂ rK₂ yK₂ r₁ r₂ ht hy
  show jsTrim (rowTitle tK₁ r₁ ++ "|" ++ rowYear yK₁ r₁)
      = jsTrim (rowTitle tK₂ r₂ ++ "|" ++ rowYear yK₂ r₂)
  rw [ht, hy]

/-- Witness for the amended C4: two concrete rows with the same raw
title and year (one with a rating column, one without) get equal ids. -/
theorem rowId_amended_witness :
    (parseRow (some "Title") none (some "Year") rowX).id
      = (parseRow (some "Title") (some "Rating") (some "Year") rowX5).id :=
  rowId_amended.2 (some "Title") none (some "Year")
    (some "Title") (some "Rating") (some "Year") rowX rowX5 (by decide) (by decide)

/-! ## Claim C5: rating parsing -/

/-- C5 counterexample: a non-numeric rating string is not mapped to
`null`.  The source computes `rawRating === "" ? null : parseFloat(...)`,
so `"abc"` yields `NaN`, not `null`. -/
theorem claim5_counterexample :
    parseFloat "abc" = none ∧
    rawRatingOf (some "Rating") rowAbc = "abc" ∧
    (parseRows [rowAbc]).map Item.rating = [RatingVal.nan] ∧
    RatingVal.nan ≠ RatingVal.null :=
  ⟨by decide, by decide, by decide, by decide⟩

/-- C5 (amended): the item's rating is `null` exactly when the raw
rating string is empty; a non-empty string is passed to `parseFloat`,
yielding `NaN` for non-numeric strings and the parsed number otherwise. -/
theorem normalizeRating_amended : ∀ (tKey rKey yKey : Option String) (r : Row),
    ((parseRow tKey rKey yKey r).rating = RatingVal.null ↔ rawRatingOf rKey r = "") ∧
    ((parseRow tKey rKey yKey r).rating = RatingVal.nan ↔
        rawRatingOf rKey r ≠ "" ∧ parseFloat (rawRatingOf rKey r) = none) ∧
    (∀ q : ℚ, (parseRow tKey rKey yKey r).rating = RatingVal.num q ↔
        rawRatingOf rKey r ≠ "" ∧ parseFloat (rawRatingOf rKey r) = some q) := by
  intro tKey rKey yKey r
  have hr : (parseRow tKey rKey yKey r).rating
      = normalizeRating (rawRatingOf rKey r) := rfl
  rw [hr]
  unfold normalizeRating
  by_cases h : rawRatingOf rKey r = ""
  · simp [h]
  · cases hp : parseFloat (rawRatingOf rKey r) <;> simp [h, hp]

/-- Witness for the amended C5 at a concrete row with rating "abc". -/
theorem normalizeRating_amended_witness :
    (parseRow (some "Title") (some "Rating") (some "Year") rowAbc).rating
      = RatingVal.nan :=
  ((normalizeRating_amended (some "Title") (some "Rating") (some "Year") rowAbc).2.1).mpr
    ⟨by decide, by decide⟩

/-! ## Claim C8: fresh import -/

/-- C8: a fresh (non-merge) import replaces the collection by exactly
the parsed items and leaves the history untouched; importing dataset A
then dataset B fresh yields exactly B's items. -/
theorem freshImport_spec :
    (∀ (rows : List Row) (s : Store),
        (importRatingsCsv rows false s).movies = parseRows rows) ∧
    (∀ (rows : List Row) (s : Store),
        (importRatingsCsv rows false s).history = s.history) ∧
    (∀ (rowsA rowsB : List Row) (s : Store),
        (importRatingsCsv rowsB false (importRatingsCsv rowsA false s)).movies
          = parseRows rowsB) :=
  ⟨fun _ _ => rfl, fun _ _ => rfl, fun _ _ _ => rfl⟩

/-! ## Claim C6: merge import -/

/-- Two stores with equal components are equal. -/
lemma store_eq_of (s₁ s₂ : Store) (hm : s₁.movies = s₂.movies)
    (hh : s₁.history = s₂.history) : s₁ = s₂ := by
  cases s₁; cases s₂; simp_all

/-- Collection after a merge import, read off the definition. -/
lemma mergeImport_movies (rows : List Row) (s : Store) :
    (importRatingsCsv rows true s).movies =
      s.movies ++ (parseRows rows).filter
        (fun p => !((s.movies.map Item.id).contains p.id)) := rfl

/-- Merge import leaves the history unchanged. -/
lemma mergeImport_history (rows : List Row) (s : Store) :
    (importRatingsCsv rows true s).history = s.history := rfl

/-- After appending exactly the items whose id was not yet present,
re-filtering the same parsed list against the grown collection retains
nothing. -/
lemma filter_not_contains_append_nil (parsed pre F : List Item)
    (hF : F = parsed.filter (fun p => !((pre.map Item.id).contains p.id))) :
    parsed.filter (fun p => !(((pre ++ F).map Item.id).contains p.id)) = [] := by
  subst hF
  apply List.filter_eq_nil_iff.mpr
  intro p hp hcontra
  rw [List.map_append] at hcontra
  simp at hcontra
  by_cases hc : p.id ∈ pre.map Item.id
  · obtain ⟨x, hx, hxid⟩ := List.mem_map.mp hc
    exact hcontra.1 x hx hxid
  · exact hcontra.2 p hp
      (fun y hy hyid => hc (hyid ▸ List.mem_map_of_mem Item.id hy)) rfl

/-- Merge import is idempotent: re-importing the same rows changes
nothing, because every parsed id is by then present. -/
lemma mergeImport_idem (rows : List Row) (s : Store) :
    importRatingsCsv rows true (importRatingsCsv rows true s)
      = importRatingsCsv rows true s := by
  apply store_eq_of
  · rw [mergeImport_movies rows (importRatingsCsv rows true s),
      mergeImport_movies rows s,
      filter_not_contains_append_nil (parseRows rows) s.movies _ rfl,
      List.append_nil]
  · rw [mergeImport_history, mergeImport_history]

/-- `parseFloat "5"` in its unevaluated rational form. -/
lemma parseFloat_five_raw : parseFloat "5"
    = some ((1 : ℚ) * (((digitsVal ['5'] : ℕ) : ℚ)
        + ((digitsVal ([] : List Char) : ℕ) : ℚ)
          / (10 : ℚ) ^ (([] : List Char).length))
      * (10 : ℚ) ^ (0 : ℤ)) := rfl

/-- `parseFloat "5" = 5`. -/
lemma parseFloat_five : parseFloat "5" = some 5 := by
  rw [parseFloat_five_raw]
  norm_num [show digitsVal ['5'] = 5 from by decide,
    show digitsVal ([] : List Char) = 0 from by decide]

/-- C6: a merge import appends exactly the parsed items whose id is
not already present, leaving every pre-existing item unchanged; it is
idempotent; and in the two-row scenario the colliding second import is
dropped, keeping the first row's rating. -/
theorem mergeImport_spec :
    (∀ (rows : List Row) (s : Store),
        (importRatingsCsv rows true s).movies =
          s.movies ++ (parseRows rows).filter
            (fun p => !((s.movies.map Item.id).contains p.id))) ∧
    (∀ (rows : List Row) (s : Store),
        importRatingsCsv rows true (importRatingsCsv rows true s)
          = importRatingsCsv rows true s) ∧
    (importRatingsCsv [rowX1] true
        (importRatingsCsv [rowX5] true ⟨[], []⟩)).movies.map
          (fun m => (m.id, m.rating)) = [("X|2001", RatingVal.num 5)] := by
  refine ⟨mergeImport_movies, mergeImport_idem, ?_⟩
  have hform : (importRatingsCsv [rowX1] true
      (importRatingsCsv [rowX5] true ⟨[], []⟩)).movies.map
        (fun m => (m.id, m.rating))
      = [("X|2001", RatingVal.num ((1 : ℚ) * (((digitsVal ['5'] : ℕ) : ℚ)
          + ((digitsVal ([] : List Char) : ℕ) : ℚ)
            / (10 : ℚ) ^ (([] : List Char).length))
        * (10 : ℚ) ^ (0 : ℤ)))] := rfl
  rw [hform]
  norm_num [show digitsVal ['5'] = 5 from by decide,
    show digitsVal ([] : List Char) = 0 from by decide]

/-! ## handleChoice helper lemmas -/

/-- Collection after a fresh import, read off the definition. -/
lemma freshImport_movies (rows : List Row) (s : Store) :
    (importRatingsCsv rows false s).movies = parseRows rows := rfl

/-- `resolveItem` never changes an item's id. -/
lemma resolveItem_id (wI lI : String) (nA nB : ℤ) (m : Item) :
    (resolveItem wI lI nA nB m).id = m.id := by
  unfold resolveItem
  split
  · rfl
  · split <;> rfl

/-- `resolveItem` never changes an item's title, year or rating. -/
lemma resolveItem_fields (wI lI : String) (nA nB : ℤ) (m : Item) :
    (resolveItem wI lI nA nB m).title = m.title ∧
    (resolveItem wI lI nA nB m).year = m.year ∧
    (resolveItem wI lI nA nB m).rating = m.rating := by
  unfold resolveItem
  split
  · exact ⟨rfl, rfl, rfl⟩
  · split <;> exact ⟨rfl, rfl, rfl⟩

/-- An item matching neither id is left untouched by `resolveItem`. -/
lemma resolveItem_of_ne (wI lI : String) (nA nB : ℤ) (m : Item)
    (h1 : m.id ≠ wI) (h2 : m.id ≠ lI) : resolveItem wI lI nA nB m = m := by
  unfold resolveItem
  rw [if_neg h1, if_neg h2]

/-- `resolveItem` preserves `played = wins + losses`. -/
lemma resolveItem_played (wI lI : String) (nA nB : ℤ) (m : Item)
    (h : m.played = m.wins + m.losses) :
    (resolveItem wI lI nA nB m).played
      = (resolveItem wI lI nA nB m).wins + (resolveItem wI lI nA nB m).losses := by
  unfold resolveItem
  split
  · simp only []
    omega
  · split
    · simp only []
      omega
    · exact h

/-- Normal form of `handleChoice`: either both ids are found and the
store is updated, or the call is a no-op. -/
lemma handleChoice_eq_cases (w l t : String) (s : Store) :
    (∃ a b, s.movies.find? (fun m => m.id == w) = some a ∧
        s.movies.find? (fun m => m.id == l) = some b ∧
        handleChoice w l t s =
          { movies := s.movies.map (resolveItem a.id b.id
              (updateElo (a.elo : ℝ) (b.elo : ℝ) 1 32).1
              (updateElo (a.elo : ℝ) (b.elo : ℝ) 1 32).2),
            history := { time := t, winner := a.id, loser := b.id,
                         prevA := a.elo, prevB := b.elo,
                         newA := (updateElo (a.elo : ℝ) (b.elo : ℝ) 1 32).1,
                         newB := (updateElo (a.elo : ℝ) (b.elo : ℝ) 1 32).2 } :: s.history }) ∨
    ((s.movies.find? (fun m => m.id == w) = none ∨
        s.movies.find? (fun m => m.id == l) = none) ∧
      handleChoice w l t s = s) := by
  cases hw : s.movies.find? (fun m => m.id == w) with
  | none =>
    right
    refine ⟨Or.inl rfl, ?_⟩
    unfold handleChoice
    rw [hw]
  | some a =>
    cases hl : s.movies.find? (fun m => m.id == l) with
    | none =>
      right
      refine ⟨Or.inr rfl, ?_⟩
      unfold handleChoice
      rw [hw, hl]
    | some b =>
      left
      refine ⟨a, b, rfl, rfl, ?_⟩
      unfold handleChoice
      rw [hw, hl]

/-- `handleChoice` preserves the id sequence of the collection. -/
lemma handleChoice_ids (w l t : String) (s : Store) :
    (handleChoice w l t s).movies.map Item.id = s.movies.map Item.id := by
  rcases handleChoice_eq_cases w l t s with ⟨a, b, _, _, heq⟩ | ⟨_, heq⟩
  · rw [heq]
    show (s.movies.map _).map Item.id = _
    rw [List.map_map]
    exact List.map_congr_left (fun m _ => resolveItem_id _ _ _ _ m)
  · rw [heq]

/-! ## Claim C2: id uniqueness -/

/-- A fresh import of two rows that map to the same id. -/
def dupStore : Store := importRatingsCsv [rowX5, rowX5] false ⟨[], []⟩

/-- C2 counterexample: the merge dedup only checks ids already in the
collection, so a single batch whose rows map to the same id produces a
reachable state with duplicate ids. -/
theorem claim2_counterexample :
    Reachable dupStore ∧ ¬ (dupStore.movies.map Item.id).Nodup :=
  ⟨Reachable.imp [rowX5, rowX5] false ⟨[], []⟩ Reachable.init, by decide⟩

/-- Reachability restricted to import batches that themselves carry
pairwise-distinct ids (the amendment the counterexample forces). -/
inductive ReachableDedup : Store → Prop where
  | init : ReachableDedup ⟨[], []⟩
  | imp : ∀ (rows : List Row) (merge : Bool) (s : Store),
      ((parseRows rows).map Item.id).Nodup →
      ReachableDedup s → ReachableDedup (importRatingsCsv rows merge s)
  | choice : ∀ (w l t : String) (s : Store),
      ReachableDedup s → ReachableDedup (handleChoice w l t s)

/-- C2 (amended): as long as every import batch itself has pairwise
distinct parsed ids, every reachable state has pairwise distinct ids:
fresh import keeps the batch's ids, merge never adds an id already
present, and comparison resolution preserves the id sequence. -/
theorem reachable_ids_nodup :
    ∀ s : Store, ReachableDedup s → (s.movies.map Item.id).Nodup := by
  intro s₀ h
  induction h with
  | init => simp
  | imp rows merge s hnd _ ih =>
    cases merge with
    | false =>
      rw [freshImport_movies]
      exact hnd
    | true =>
      rw [mergeImport_movies, List.map_append]
      refine List.nodup_append.mpr ⟨ih, ?_, ?_⟩
      · exact List.Nodup.sublist
          (List.Sublist.map Item.id (List.filter_sublist _)) hnd
      · intro x hx hx'
        obtain ⟨p, hpF, rfl⟩ := List.mem_map.mp hx'
        have hpred := (List.mem_filter.mp hpF).2
        simp at hpred
        obtain ⟨y, hy, hyid⟩ := List.mem_map.mp hx
        exact hpred y hy hyid
  | choice w l t s _ ih =>
    rw [handleChoice_ids]
    exact ih

/-- Witness for the amended C2: a concrete dedup-respecting import
yields distinct ids. -/
theorem reachable_ids_nodup_witness :
    ((importRatingsCsv [rowX5, rowY] false ⟨[], []⟩).movies.map Item.id).Nodup :=
  reachable_ids_nodup _
    (ReachableDedup.imp [rowX5, rowY] false ⟨[], []⟩ (by decide) ReachableDedup.init)

/-! ## Claim C7: the played/wins/losses invariant -/

/-- Every item of the store satisfies `played = wins + losses`. -/
def playedInv (s : Store) : Prop :=
  ∀ m ∈ s.movies, m.played = m.wins + m.losses

/-- C7: imported items start with zero counters, and each comparison
resolution bumps the winner's `played`/`wins` and the loser's
`played`/`losses` together, so `played = wins + losses` holds at every
reachable state. -/
theorem reachable_playedInv : ∀ s : Store, Reachable s → playedInv s := by
  intro s₀ h
  induction h with
  | init => intro m hm; simp at hm
  | imp rows merge s _ ih =>
    intro m hm
    cases merge with
    | false =>
      rw [freshImport_movies] at hm
      simp [parseRows] at hm
      obtain ⟨r, _, rfl⟩ := hm
      rfl
    | true =>
      rw [mergeImport_movies] at hm
      rcases List.mem_append.mp hm with hmem | hmem
      · exact ih m hmem
      · have := (List.mem_filter.mp hmem).1
        simp [parseRows] at this
        obtain ⟨r, _, rfl⟩ := this
        rfl
  | choice w l t s _ ih =>
    rcases handleChooseCases : handleChoice_eq_cases w l t s with ⟨a, b, _, _, heq⟩ | ⟨_, heq⟩
    · intro m hm
      rw [heq] at hm
      simp only [List.mem_map] at hm
      obtain ⟨m₀, hm₀, rfl⟩ := hm
      exact resolveItem_played _ _ _ _ m₀ (ih m₀ hm₀)
    · rw [heq]
      exact ih

/-- Witness for C7 at a concrete reachable state with one resolved
comparison. -/
theorem reachable_playedInv_witness :
    playedInv (handleChoice "X|2001" "Y|2002" "t0"
      (importRatingsCsv [rowX5, rowY] false ⟨[], []⟩)) :=
  reachable_playedInv _
    (Reachable.choice "X|2001" "Y|2002" "t0" _
      (Reachable.imp [rowX5, rowY] false ⟨[], []⟩ Reachable.init))

/-! ## Claim C10: frame conditions of handleChoice -/

/-- C10: when both ids are present (and distinct), a resolution keeps
the collection's length and id sequence, leaves items matching neither
id untouched, never changes any item's title/year/rating, and prepends
exactly one history entry carrying the pre-update elos and the
`updateElo` results; when either id is absent the whole store is
unchanged. -/
theorem handleChoice_frame :
    (∀ (w l t : String) (s : Store) (a b : Item),
        s.movies.find? (fun m => m.id == w) = some a →
        s.movies.find? (fun m => m.id == l) = some b →
        w ≠ l →
        ((handleChoice w l t s).movies.length = s.movies.length ∧
         (handleChoice w l t s).movies.map Item.id = s.movies.map Item.id ∧
         (∀ m ∈ s.movies, m.id ≠ w → m.id ≠ l → m ∈ (handleChoice w l t s).movies) ∧
         (handleChoice w l t s).movies.map Item.title = s.movies.map Item.title ∧
         (handleChoice w l t s).movies.map Item.year = s.movies.map Item.year ∧
         (handleChoice w l t s).movies.map Item.rating = s.movies.map Item.rating ∧
         (handleChoice w l t s).history =
           { time := t, winner := w, loser := l, prevA := a.elo, prevB := b.elo,
             newA := (updateElo (a.elo : ℝ) (b.elo : ℝ) 1 32).1,
             newB := (updateElo (a.elo : ℝ) (b.elo : ℝ) 1 32).2 } :: s.history)) ∧
    (∀ (w l t : String) (s : Store),
        (s.movies.find? (fun m => m.id == w) = none ∨
         s.movies.find? (fun m => m.id == l) = none) →
        handleChoice w l t s = s) := by
  constructor
  · intro w l t s a b hw hl _
    have ha : a.id = w := by
      have := List.find?_some hw
      simpa using this
    have hb : b.id = l := by
      have := List.find?_some hl
      simpa using this
    rcases handleChoice_eq_cases w l t s with ⟨a', b', hw', hl', heq⟩ | ⟨hnone, _⟩
    · rw [hw] at hw'
      rw [hl] at hl'
      obtain rfl := Option.some.inj hw'
      obtain rfl := Option.some.inj hl'
      refine ⟨?_, ?_, ?_, ?_, ?_, ?_, ?_⟩
      · rw [heq]; exact List.length_map s.movies _
      · rw [heq]
        show (s.movies.map _).map Item.id = _
        rw [List.map_map]
        exact List.map_congr_left (fun m _ => resolveItem_id _ _ _ _ m)
      · intro m hm hmw hml
        rw [heq]
        show m ∈ s.movies.map _
        refine List.mem_map.mpr ⟨m, hm, ?_⟩
        exact resolveItem_of_ne _ _ _ _ m (ha ▸ hmw) (hb ▸ hml)
      · rw [heq]
        show (s.movies.map _).map Item.title = _
        rw [List.map_map]
        exact List.map_congr_left (fun m _ => (resolveItem_fields _ _ _ _ m).1)
      · rw [heq]
        show (s.movies.map _).map Item.year = _
        rw [List.map_map]
        exact List.map_congr_left (fun m _ => (resolveItem_fields _ _ _ _ m).2.1)
      · rw [heq]
        show (s.movies.map _).map Item.rating = _
        rw [List.map_map]
        exact List.map_congr_left (fun m _ => (resolveItem_fields _ _ _ _ m).2.2)
      · rw [heq, ha, hb]
    · rcases hnone with h | h
      · rw [hw] at h; simp at h
      · rw [hl] at h; simp at h
  · intro w l t s hnone
    rcases handleChoice_eq_cases w l t s with ⟨a, b, hw, hl, _⟩ | ⟨_, heq⟩
    · rcases hnone with h | h
      · rw [hw] at h; simp at h
      · rw [hl] at h; simp at h
    · exact heq

/-- Concrete items and store for the C10 witness. -/
def itemA : Item :=
  { id := "A|1", title := "A", year := "1", rating := .null,
    elo := 1200, played := 0, wins := 0, losses := 0 }

def itemB : Item :=
  { id := "B|2", title := "B", year := "2", rating := .null,
    elo := 1000, played := 0, wins := 0, losses := 0 }

def storeAB : Store := ⟨[itemA, itemB], []⟩

/-- Witness for C10: resolving A-beats-B on a concrete two-item store
prepends exactly the expected history entry. -/
theorem handleChoice_frame_witness :
    (handleChoice "A|1" "B|2" "t0" storeAB).history =
      [{ time := "t0", winner := "A|1", loser := "B|2", prevA := 1200, prevB := 1000,
         newA := (updateElo ((1200 : ℤ) : ℝ) ((1000 : ℤ) : ℝ) 1 32).1,
         newB := (updateElo ((1200 : ℤ) : ℝ) ((1000 : ℤ) : ℝ) 1 32).2 }] :=
  (handleChoice_frame.1 "A|1" "B|2" "t0" storeAB itemA itemB
    (by decide) (by decide) (by decide)).2.2.2.2.2.2

/-! ## Claim C9: the pair selector -/

/-- If `find?` with a stronger predicate would stop at `c` and `c`
also satisfies the weaker predicate, `find?` with the weaker predicate
stops at the same `c`. -/
lemma find?_of_find?_stronger {α : Type _} (p q : α → Bool)
    (hpq : ∀ x, p x = true → q x = true) :
    ∀ (l : List α) (c : α), l.find? q = some c → p c = true → l.find? p = some c := by
  intro l
  induction l with
  | nil => intro c h _; simp at h
  | cons x t ih =>
    intro c h hc
    by_cases hqx : q x = true
    · rw [List.find?_cons_of_pos t hqx] at h
      obtain rfl := Option.some.inj h
      rw [List.find?_cons_of_pos t hc]
    · have hpx : ¬ p x = true := fun hp => hqx (hpq x hp)
      rw [List.find?_cons_of_neg t hqx] at h
      rw [List.find?_cons_of_neg t hpx]
      exact ih c h hc

/-- Stability of the sort: the head of `mergeSort` is the first list
element that compares `le` against every element — i.e. the first
element attaining the minimum, ties broken by position. -/
lemma head_mergeSort_eq_find_min {α : Type _} (le : α → α → Bool)
    (htrans : ∀ a b c, le a b → le b c → le a c)
    (htotal : ∀ a b, le a b || le b a) :
    ∀ l : List α,
      (l.mergeSort le).head? = l.find? (fun x => l.all (fun y => le x y)) := by
  intro l
  induction l with
  | nil => simp
  | cons a t ih =>
    obtain ⟨l₁, l₂, h1, h2, h3⟩ := List.mergeSort_cons htrans htotal a t
    cases l₁ with
    | nil =>
      simp only [List.nil_append] at h1 h2
      have hsorted := List.sorted_mergeSort htrans htotal (a :: t)
      rw [h1] at hsorted
      have hall : ((a :: t).all (fun y => le a y)) = true := by
        rw [List.all_cons]
        refine Bool.and_eq_true_iff.mpr ⟨?_, ?_⟩
        · have h := htotal a a
          revert h; cases le a a <;> simp
        · rw [List.all_eq_true]
          intro y hy
          have hymem : y ∈ l₂ := by rw [← h2]; exact List.mem_mergeSort.mpr hy
          exact (List.pairwise_cons.mp hsorted).1 y hymem
      rw [h1, show List.find? (fun x => (a :: t).all (fun y => le x y)) (a :: t)
          = some a from List.find?_cons_of_pos _ hall]
      rfl
    | cons c l₁' =>
      have hnac : ¬ le a c = true := by
        have h := h3 c (List.mem_cons_self c l₁')
        revert h; cases le a c <;> simp
      have hle_ca : le c a = true := by
        have h := htotal a c
        revert h hnac; cases le a c <;> cases le c a <;> simp
      have hct : c ∈ t := by
        have hmem : c ∈ t.mergeSort le := by
          rw [h2]
          exact List.mem_append.mpr (Or.inl (List.mem_cons_self c l₁'))
        exact List.mem_mergeSort.mp hmem
      have hfind_t : t.find? (fun x => t.all (fun y => le x y)) = some c := by
        rw [← ih, h2]; rfl
      have hpred_a : ¬ ((a :: t).all (fun y => le a y) = true) := by
        rw [List.all_cons, Bool.and_eq_true]
        rintro ⟨-, hall⟩
        exact hnac ((List.all_eq_true.mp hall) c hct)
      have hstep : t.find? (fun x => (a :: t).all (fun y => le x y)) = some c := by
        refine find?_of_find?_stronger _ _ ?_ t c hfind_t ?_
        · intro x hx
          rw [List.all_cons, Bool.and_eq_true] at hx
          exact hx.2
        · have hallc := List.find?_some hfind_t
          rw [List.all_cons]
          exact Bool.and_eq_true_iff.mpr ⟨hle_ca, hallc⟩
      rw [h1, show List.find? (fun x => (a :: t).all (fun y => le x y)) (a :: t)
          = List.find? (fun x => (a :: t).all (fun y => le x y)) t from
            List.find?_cons_of_neg _ hpred_a, hstep]
      rfl

/-- The draw comparison is transitive. -/
lemma eloDiffLE_trans : ∀ x y z : Item × Item × ℕ,
    eloDiffLE x y → eloDiffLE y z → eloDiffLE x z := by
  intro x y z hxy hyz
  simp only [eloDiffLE, decide_eq_true_eq] at *
  omega

/-- The draw comparison is total. -/
lemma eloDiffLE_total : ∀ x y : Item × Item × ℕ,
    eloDiffLE x y || eloDiffLE y x := by
  intro x y
  simp only [eloDiffLE, Bool.or_eq_true, decide_eq_true_eq]
  omega

/-- Every retained draw consists of two items of the collection. -/
lemma retainedPicks_mem (movies : List Item) (draws : List (ℕ × ℕ)) :
    ∀ x ∈ retainedPicks movies draws, x.1 ∈ movies ∧ x.2.1 ∈ movies := by
  intro x hx
  unfold retainedPicks at hx
  rw [List.mem_filterMap] at hx
  obtain ⟨ij, _, hx⟩ := hx
  cases h1 : movies[ij.1]? with
  | none => rw [h1] at hx; simp at hx
  | some a =>
    cases h2 : movies[ij.2]? with
    | none => rw [h1, h2] at hx; simp at hx
    | some b =>
      rw [h1, h2] at hx
      replace hx : (if a.id = b.id then none
          else some (a, b, (a.elo - b.elo).natAbs)) = some x := hx
      by_cases hid : a.id = b.id
      · rw [if_pos hid] at hx; simp at hx
      · rw [if_neg hid] at hx
        obtain rfl := Option.some.inj hx
        exact ⟨List.getElem?_mem h1, List.getElem?_mem h2⟩

/-- C9: with the random draws taken as input, the selector returns no
pair on collections of fewer than two items; otherwise, if some draw
is retained it returns the first retained draw attaining the minimum
elo difference (ties broken by draw order), and if none is retained it
falls back to the first two items — in either case returning two items
of the collection. -/
theorem pickPair_spec :
    (∀ (movies : List Item) (draws : List (ℕ × ℕ)),
        movies.length < 2 → pickPair movies draws = none) ∧
    (∀ (movies : List Item) (draws : List (ℕ × ℕ)) (m0 m1 : Item)
        (rest : List Item), movies = m0 :: m1 :: rest →
        ((retainedPicks movies draws = [] →
            pickPair movies draws = some (m0, m1)) ∧
         (retainedPicks movies draws ≠ [] →
            pickPair movies draws =
              ((retainedPicks movies draws).find? (fun x =>
                  (retainedPicks movies draws).all (fun y => eloDiffLE x y))).map
                (fun best => (best.1, best.2.1))) ∧
         (∃ a b, pickPair movies draws = some (a, b) ∧
            a ∈ movies ∧ b ∈ movies))) := by
  constructor
  · intro movies draws hlen
    unfold pickPair
    rw [if_pos hlen]
  · intro movies draws m0 m1 rest hmovies
    subst hmovies
    have hlen2 : ¬ (m0 :: m1 :: rest).length < 2 := by simp
    have hmain : retainedPicks (m0 :: m1 :: rest) draws ≠ [] →
        pickPair (m0 :: m1 :: rest) draws =
          ((retainedPicks (m0 :: m1 :: rest) draws).find? (fun x =>
              (retainedPicks (m0 :: m1 :: rest) draws).all
                (fun y => eloDiffLE x y))).map
            (fun best => (best.1, best.2.1)) := by
      intro hne
      unfold pickPair
      rw [if_neg hlen2, if_neg hne]
      cases hp : retainedPicks (m0 :: m1 :: rest) draws with
      | nil => exact absurd hp hne
      | cons p ps =>
        have hhead := head_mergeSort_eq_find_min eloDiffLE eloDiffLE_trans
          eloDiffLE_total (p :: ps)
        cases hms : (p :: ps).mergeSort eloDiffLE with
        | nil =>
          have hperm := List.mergeSort_perm (p :: ps) eloDiffLE
          rw [hms] at hperm
          have := hperm.length_eq
          simp at this
        | cons best tail =>
          rw [hms] at hhead
          rw [← hhead]
          rfl
    refine ⟨?_, hmain, ?_⟩
    · intro hp
      unfold pickPair
      rw [if_neg hlen2, if_pos hp]
      simp
    · cases hp : retainedPicks (m0 :: m1 :: rest) draws with
      | nil =>
        refine ⟨m0, m1, ?_, List.mem_cons_self m0 _,
          List.mem_cons_of_mem m0 (List.mem_cons_self m1 _)⟩
        unfold pickPair
        rw [if_neg hlen2, if_pos hp]
        simp
      | cons p ps =>
        have h := hmain (by rw [hp]; simp)
        rw [hp] at h
        cases hfind : (p :: ps).find? (fun x =>
            (p :: ps).all (fun y => eloDiffLE x y)) with
        | none =>
          exfalso
          have hhead := head_mergeSort_eq_find_min eloDiffLE eloDiffLE_trans
            eloDiffLE_total (p :: ps)
          rw [hfind] at hhead
          have hperm := List.mergeSort_perm (p :: ps) eloDiffLE
          cases hms : (p :: ps).mergeSort eloDiffLE with
          | nil =>
            rw [hms] at hperm
            have := hperm.length_eq
            simp at this
          | cons best tail => rw [hms] at hhead; simp at hhead
        | some best =>
          rw [hfind] at h
          have hbestmem : best ∈ p :: ps := List.mem_of_find?_eq_some hfind
          have hmem := retainedPicks_mem (m0 :: m1 :: rest) draws best
            (by rw [hp]; exact hbestmem)
          exact ⟨best.1, best.2.1, h, hmem.1, hmem.2⟩

/-- A third concrete item for the C9 witness. -/
def itemC : Item :=
  { id := "C|3", title := "C", year := "3", rating := .null,
    elo := 1210, played := 0, wins := 0, losses := 0 }

/-- Witness for C9: on a concrete three-item collection, the draw with
the smallest elo difference wins, and a one-item collection yields no
pair. -/
theorem pickPair_spec_witness :
    pickPair [itemA] [] = none ∧
    pickPair [itemA, itemB, itemC] [(0, 1), (0, 2), (1, 1), (5, 0)]
      = some (itemA, itemC) := by
  constructor
  · exact pickPair_spec.1 [itemA] [] (by decide)
  · have h := (pickPair_spec.2 [itemA, itemB, itemC]
      [(0, 1), (0, 2), (1, 1), (5, 0)] itemA itemB [itemC] rfl).2.1 (by decide)
    rw [h]
    decide

end LetterboxdElo
